import Mathlib

/-!
# Verification of the isalab17-custom repository

Shallow embedding of the two pieces of the repository:

* `custom_addons/sale_custom_calculation/models/sale_order_line.py` —
  a computed/inverse subtotal field on sale order lines, with on-change
  handlers and `write`/`create` overrides.  Monetary values are modelled
  as rationals; a raised `UserError` is modelled as `Except.error`.

* `custom_migration_scripts/base/17.0.1.3/pre-migration.py` — four SQL
  repair steps over a relational state.  The database tables touched by
  the script are modelled as lists of records, parameterized SQL becomes
  list transformations, and each step also returns the list of SQL
  statements it issued (so that "no further SQL is executed" facts can be
  stated).  The recursive `_delete_view_cascade` is modelled with an
  explicit fuel parameter, since the source recursion is unbounded when
  the inheritance relation has a cycle.
-/

deriving instance DecidableEq for Except

/-! ## Small string machinery: SQL LIKE for patterns of the form %text% -/

/-- `startsWithChars p s`: the char list `p` is an initial segment of `s`. -/
def startsWithChars : List Char → List Char → Bool
  | [], _ => true
  | _ :: _, [] => false
  | p :: ps, c :: cs => p == c && startsWithChars ps cs

/-- `hasSubChars p s`: the char list `p` occurs contiguously inside `s`. -/
def hasSubChars (p : List Char) : List Char → Bool
  | [] => startsWithChars p []
  | c :: cs => startsWithChars p (c :: cs) || hasSubChars p cs

/-- The percent character, the SQL LIKE wildcard. -/
def percentChar : Char := Char.ofNat 37

/-- The single-quote character (used inside the view arch patterns). -/
def sqc : String := String.singleton (Char.ofNat 39)

/-- Strip the leading and trailing `%` wildcards of a LIKE pattern. -/
def trimPercentChars (l : List Char) : List Char :=
  ((l.dropWhile (· == percentChar)).reverse.dropWhile (· == percentChar)).reverse

/-- SQL `s LIKE pat` for the patterns used by the migration script, which
are all of the form `%text%` with no wildcard inside `text`: the match is
containment of `text` in `s`. -/
def likeMatch (s pat : String) : Bool :=
  hasSubChars (trimPercentChars pat.toList) s.toList

/-! ## Sale order line model

From `sale_custom_calculation/models/sale_order_line.py`.  A line's three
numeric fields; the Python float values are modelled as rationals.  A
`UserError` raise is `Except.error userErrMsg` (the source message is in
Persian and means exactly this English sentence). -/

/-- The `UserError` message of the source (translated). -/
def userErrMsg : String := "quantity must be greater than zero"

/-- A sale order line record: the three fields the custom module reads
and writes. -/
structure SOLine where
  product_uom_qty : Rat
  price_unit : Rat
  manual_price_subtotal : Rat
deriving DecidableEq, Repr

/-- `_compute_manual_subtotal` (lines 18-24): unconditionally sets
`manual_price_subtotal = product_uom_qty * price_unit` (per line; we model
a single line). -/
def computeManualSubtotal (l : SOLine) : SOLine :=
  { l with manual_price_subtotal := l.product_uom_qty * l.price_unit }

/-- `_inverse_manual_subtotal` (lines 26-34): when both `product_uom_qty`
and `manual_price_subtotal` are truthy (Python truthiness of a float:
nonzero), reject non-positive quantity, otherwise set
`price_unit = manual_price_subtotal / product_uom_qty`; when either is
falsy the method silently does nothing. -/
def inverseManualSubtotal (l : SOLine) : Except String SOLine :=
  if l.product_uom_qty ≠ 0 ∧ l.manual_price_subtotal ≠ 0 then
    if l.product_uom_qty ≤ 0 then Except.error userErrMsg
    else Except.ok { l with price_unit := l.manual_price_subtotal / l.product_uom_qty }
  else Except.ok l

/-- `_onchange_qty_price` (lines 44-50): when both `product_uom_qty` and
`price_unit` are truthy, set `manual_price_subtotal` to their product;
otherwise do nothing. -/
def onchangeQtyPrice (l : SOLine) : SOLine :=
  if l.product_uom_qty ≠ 0 ∧ l.price_unit ≠ 0 then
    { l with manual_price_subtotal := l.product_uom_qty * l.price_unit }
  else l

/-- `_onchange_manual_subtotal` (lines 52-60): same body as the inverse
method, on the single record being edited. -/
def onchangeManualSubtotal (l : SOLine) : Except String SOLine :=
  if l.product_uom_qty ≠ 0 ∧ l.manual_price_subtotal ≠ 0 then
    if l.product_uom_qty ≤ 0 then Except.error userErrMsg
    else Except.ok { l with price_unit := l.manual_price_subtotal / l.product_uom_qty }
  else Except.ok l

/-- A `vals` dictionary for `write`/`create`: `some x` means the key is
present with value `x`, `none` that the key is absent. -/
structure Vals where
  product_uom_qty : Option Rat
  price_unit : Option Rat
  manual_price_subtotal : Option Rat
deriving DecidableEq, Repr

/-- `super().write(vals)` / field assignment: apply every provided value
to the record. -/
def applyVals (l : SOLine) (v : Vals) : SOLine :=
  { product_uom_qty := v.product_uom_qty.getD l.product_uom_qty
    price_unit := v.price_unit.getD l.price_unit
    manual_price_subtotal := v.manual_price_subtotal.getD l.manual_price_subtotal }

/-- The `write` override (lines 62-80).  First branch: both
`manual_price_subtotal` and `product_uom_qty` keys present; if both values
are truthy, reject non-positive quantity and overwrite `vals[price_unit]`
with subtotal/quantity.  Second branch: only the subtotal key present; the
line's stored quantity is used the same way.  Finally `super().write`
applies the (possibly updated) vals. -/
def writeLine (l : SOLine) (vals : Vals) : Except String SOLine :=
  match vals.manual_price_subtotal, vals.product_uom_qty with
  | some s, some q =>
    if q ≠ 0 ∧ s ≠ 0 then
      if q ≤ 0 then Except.error userErrMsg
      else Except.ok (applyVals l { vals with price_unit := some (s / q) })
    else Except.ok (applyVals l vals)
  | some s, none =>
    if l.product_uom_qty ≠ 0 ∧ s ≠ 0 then
      if l.product_uom_qty ≤ 0 then Except.error userErrMsg
      else Except.ok (applyVals l { vals with price_unit := some (s / l.product_uom_qty) })
    else Except.ok (applyVals l vals)
  | none, _ => Except.ok (applyVals l vals)

/-- The `create` override (lines 82-93), for one `vals` of the list: if
both the subtotal and the quantity values are truthy, reject non-positive
quantity and overwrite `vals[price_unit]`; then the record is created from
the vals (missing float fields default to `0.0`). -/
def createLine (vals : Vals) : Except String SOLine :=
  match vals.manual_price_subtotal, vals.product_uom_qty with
  | some s, some q =>
    if s ≠ 0 ∧ q ≠ 0 then
      if q ≤ 0 then Except.error userErrMsg
      else Except.ok (applyVals ⟨0, 0, 0⟩ { vals with price_unit := some (s / q) })
    else Except.ok (applyVals ⟨0, 0, 0⟩ vals)
  | _, _ => Except.ok (applyVals ⟨0, 0, 0⟩ vals)

/-- The framework flow when quantity and price change together (not via
the subtotal field): the record is updated, the UI on-change handler
`_onchange_qty_price` fires, and on persistence the stored computed field
recomputes via `_compute_manual_subtotal` (its `api.depends` lists exactly
these two fields). -/
def updateQtyPrice (l : SOLine) (q p : Rat) : SOLine :=
  computeManualSubtotal (onchangeQtyPrice { l with product_uom_qty := q, price_unit := p })

/-! ## Migration script model

From `custom_migration_scripts/base/17.0.1.3/pre-migration.py`.  The
database tables the script touches are lists of records; every SQL
statement the script issues is also recorded in a trace so that claims
about "no SQL executed" are statable.  Logging (`_logger`) has no
database effect and is not modelled. -/

/-- A row of `ir_cron`. -/
structure CronJob where
  id : Nat
  cron_name : String
  active : Bool
deriving DecidableEq, Repr

/-- A row of `ir_model_data`. -/
structure MData where
  id : Nat
  module : String
  name : String
  model : String
  res_id : Nat
  noupdate : Bool
deriving DecidableEq, Repr

/-- A row of `account_edi_document` (only the column the script reads). -/
structure EdiDoc where
  id : Nat
  edi_format_id : Option Nat
deriving DecidableEq, Repr

/-- A row of `ir_model`. -/
structure IrModel where
  id : Nat
  model : String
deriving DecidableEq, Repr

/-- A row of `ir_model_access` (only the column the script reads). -/
structure ModelAccess where
  id : Nat
  model_id : Nat
deriving DecidableEq, Repr

/-- A row of `ir_ui_view` (the columns the script reads). -/
structure View where
  id : Nat
  name : String
  model : String
  inherit_id : Option Nat
  arch_db : String
deriving DecidableEq, Repr

/-- The database state seen by the migration script.  The flag
`account_edi_document_table` models the `information_schema` existence
check of step 2 (the script queries no other table conditionally). -/
structure DB where
  ir_cron : List CronJob
  ir_model_data : List MData
  account_edi_document_table : Bool
  account_edi_document : List EdiDoc
  ir_model : List IrModel
  ir_model_access : List ModelAccess
  ir_ui_view : List View
deriving DecidableEq, Repr

/-- The SQL statements the script can issue, abstracted to their shape. -/
inductive Stmt where
  | updateCronDeactivate
  | checkEdiDocTable
  | updateMdataFatturapa
  | updateMdataEdiFormats
  | selectProjectWizardModel
  | deleteModelAccess
  | deleteMdataWizard
  | selectViewsPattern (pat : String)
  | selectViewChildren (vid : Nat)
  | deleteMdataView (vid : Nat)
  | deleteView (vid : Nat)
deriving DecidableEq, Repr

/-- Whether a statement modifies data (UPDATE/DELETE) as opposed to a
read-only existence check or SELECT. -/
def Stmt.isMutation : Stmt → Bool
  | .updateCronDeactivate => true
  | .checkEdiDocTable => false
  | .updateMdataFatturapa => true
  | .updateMdataEdiFormats => true
  | .selectProjectWizardModel => false
  | .deleteModelAccess => true
  | .deleteMdataWizard => true
  | .selectViewsPattern _ => false
  | .selectViewChildren _ => false
  | .deleteMdataView _ => true
  | .deleteView _ => true

/-- The single-row update of `_fix_fatturapa_cron`: deactivate an active
cron whose name matches `%FatturaPA%`. -/
def cronFix (c : CronJob) : CronJob :=
  if likeMatch c.cron_name "%FatturaPA%" && c.active then { c with active := false } else c

/-- `_fix_fatturapa_cron` (lines 46-69): one unconditional UPDATE on
`ir_cron`; the RETURNING rows are only logged. -/
def fixFatturapaCron (db : DB) : DB × List Stmt :=
  ({ db with ir_cron := db.ir_cron.map cronFix }, [Stmt.updateCronDeactivate])

/-- The first UPDATE of `_fix_edi_format_noupdate`: set `noupdate` on the
`l10n_it_edi.edi_fatturaPA` metadata row when it is still false. -/
def mdataFatturapaFix (d : MData) : MData :=
  if d.module == "l10n_it_edi" && d.name == "edi_fatturaPA" && !d.noupdate then
    { d with noupdate := true }
  else d

/-- The second UPDATE of `_fix_edi_format_noupdate`: set `noupdate` on
`account.edi.format` metadata rows whose `res_id` is referenced by a
linked `account_edi_document` row. -/
def mdataEdiFormatFix (linked : List Nat) (d : MData) : MData :=
  if d.model == "account.edi.format" && !d.noupdate && linked.contains d.res_id then
    { d with noupdate := true }
  else d

/-- `_fix_edi_format_noupdate` (lines 72-123): return early when the
`account_edi_document` table does not exist; otherwise the two guarded
UPDATEs on `ir_model_data`. -/
def fixEdiFormatNoupdate (db : DB) : DB × List Stmt :=
  if !db.account_edi_document_table then (db, [Stmt.checkEdiDocTable])
  else
    let linked := db.account_edi_document.filterMap EdiDoc.edi_format_id
    ({ db with ir_model_data :=
        (db.ir_model_data.map mdataFatturapaFix).map (mdataEdiFormatFix linked) },
     [Stmt.checkEdiDocTable, Stmt.updateMdataFatturapa, Stmt.updateMdataEdiFormats])

/-- `_fix_project_delete_wizard` (lines 126-162): return early when no
`ir_model` row with model `project.delete.wizard` exists; otherwise delete
the matching `ir_model_access` rows and the `ir_model_data` rows whose
name matches `%project_delete_wizard%`. -/
def fixProjectDeleteWizard (db : DB) : DB × List Stmt :=
  let modelIds := (db.ir_model.filter (fun m => m.model == "project.delete.wizard")).map IrModel.id
  if modelIds.isEmpty then (db, [Stmt.selectProjectWizardModel])
  else
    ({ db with
        ir_model_access := db.ir_model_access.filter (fun a => !modelIds.contains a.model_id)
        ir_model_data := db.ir_model_data.filter
          (fun d => !likeMatch d.name "%project_delete_wizard%") },
     [Stmt.selectProjectWizardModel, Stmt.deleteModelAccess, Stmt.deleteMdataWizard])

/-- `SELECT id, name FROM ir_ui_view WHERE inherit_id = %s`. -/
def viewChildren (db : DB) (vid : Nat) : List View :=
  db.ir_ui_view.filter (fun v => v.inherit_id == some vid)

/-- `_delete_view_cascade` (lines 165-198) together with its enclosing
for-loops, as one fuel-indexed function on a worklist of view ids: for the
head id, first recursively delete the subtrees of all current children,
then the id's `ir_model_data` rows (model `ir.ui.view`), then the view row
itself (counting 1 when a row was actually deleted), then process the rest
of the worklist.  The fuel only bounds the recursion depth/length; the
source recursion is unbounded, so `none` models non-termination within the
given bound. -/
def cascadeMany : Nat → DB → List Nat → Option (DB × Nat × List Stmt)
  | _, db, [] => some (db, 0, [])
  | 0, _, _ :: _ => none
  | fuel + 1, db, vid :: rest =>
    let childIds := (viewChildren db vid).map View.id
    match cascadeMany fuel db childIds with
    | none => none
    | some (db1, n1, l1) =>
      let db2 := { db1 with ir_model_data :=
        db1.ir_model_data.filter (fun d => !(d.res_id == vid && d.model == "ir.ui.view")) }
      let existed := db2.ir_ui_view.any (fun v => v.id == vid)
      let db3 := { db2 with ir_ui_view := db2.ir_ui_view.filter (fun v => v.id != vid) }
      match cascadeMany fuel db3 rest with
      | none => none
      | some (db4, n2, l2) =>
        some (db4, n1 + (if existed then 1 else 0) + n2,
          Stmt.selectViewChildren vid ::
            (l1 ++ [Stmt.deleteMdataView vid, Stmt.deleteView vid] ++ l2))

/-- `_delete_view_cascade` on a single view id. -/
def deleteViewCascade (fuel : Nat) (db : DB) (vid : Nat) : Option (DB × Nat × List Stmt) :=
  cascadeMany fuel db [vid]

/-- The four LIKE patterns of `_fix_incompatible_settings_views`
(lines 216-223), written with explicit quote characters. -/
def problematicPatterns : List String :=
  [ "%hasclass(" ++ sqc ++ "settings" ++ sqc ++ ")%",
    "%hasclass(" ++ sqc ++ sqc ++ "settings" ++ sqc ++ sqc ++ ")%",
    "%@id=" ++ sqc ++ "account_vendor_bills" ++ sqc ++ "%",
    "%@id=" ++ sqc ++ sqc ++ "account_vendor_bills" ++ sqc ++ sqc ++ "%" ]

/-- The per-pattern SELECT of `_fix_incompatible_settings_views`: views of
model `res.config.settings` with a non-null `inherit_id` whose `arch_db`
matches the pattern.  (The LEFT JOIN on `ir_model_data` only retrieves the
module name for logging.) -/
def selectProblemViews (db : DB) (pat : String) : List Nat :=
  ((db.ir_ui_view.filter (fun v =>
      v.model == "res.config.settings" && v.inherit_id.isSome && likeMatch v.arch_db pat)).map
    View.id)

/-- The pattern loop of `_fix_incompatible_settings_views`: for each
pattern, select the matching views and cascade-delete each of them. -/
def fixViewsPatternList (fuel : Nat) (db : DB) : List String → Option (DB × Nat × List Stmt)
  | [] => some (db, 0, [])
  | pat :: rest =>
    match cascadeMany fuel db (selectProblemViews db pat) with
    | none => none
    | some (db1, n1, l1) =>
      match fixViewsPatternList fuel db1 rest with
      | none => none
      | some (db2, n2, l2) =>
        some (db2, n1 + n2, Stmt.selectViewsPattern pat :: (l1 ++ l2))

/-- `_fix_incompatible_settings_views` (lines 201-246). -/
def fixIncompatibleSettingsViews (fuel : Nat) (db : DB) : Option (DB × List Stmt) :=
  match fixViewsPatternList fuel db problematicPatterns with
  | none => none
  | some (db1, _, l) => some (db1, l)

/-- Python truthiness of the `version` argument (`if not version: return`):
`None` and the empty string are falsy. -/
def truthyVersion : Option String → Bool
  | none => false
  | some s => !s.isEmpty

/-- `migrate` (lines 15-43): return immediately on a falsy version,
otherwise run the four repair steps in order, collecting the SQL trace. -/
def migrate (fuel : Nat) (version : Option String) (db : DB) : Option (DB × List Stmt) :=
  if !truthyVersion version then some (db, [])
  else
    let r1 := fixFatturapaCron db
    let r2 := fixEdiFormatNoupdate r1.1
    let r3 := fixProjectDeleteWizard r2.1
    match fixIncompatibleSettingsViews fuel r3.1 with
    | none => none
    | some (db4, l4) => some (db4, r1.2 ++ r2.2 ++ r3.2 ++ l4)

/-- The database state produced by `migrate`, without the SQL trace. -/
def migrateState (fuel : Nat) (version : Option String) (db : DB) : Option DB :=
  (migrate fuel version db).map (·.1)


/-- The inheritance child step of a database: `childStep db p c` holds
when a view row with id `c` has `inherit_id = p`.  `_delete_view_cascade`
recurses from a parent to exactly these children. -/
def childStep (db : DB) (p c : Nat) : Prop :=
  ∃ w ∈ db.ir_ui_view, w.id = c ∧ w.inherit_id = some p

/-- A view targeted by `_fix_incompatible_settings_views`: model
`res.config.settings`, non-null parent reference, arch matching one of the
four deprecated patterns. -/
def viewMatcher (v : View) : Bool :=
  v.model == "res.config.settings" && v.inherit_id.isSome &&
    problematicPatterns.any (fun pat => likeMatch v.arch_db pat)

/-- The state after the two DELETEs of `_delete_view_cascade` on one view
id: its `ir.ui.view` metadata rows and its view row are removed. -/
def viewDelete (db1 : DB) (vid : Nat) : DB :=
  { db1 with
    ir_model_data :=
      db1.ir_model_data.filter (fun d => !(d.res_id == vid && d.model == "ir.ui.view"))
    ir_ui_view := db1.ir_ui_view.filter (fun v => v.id != vid) }

/-! ## Concrete databases used by witnesses and counterexamples -/

/-- A concrete database used by the C10 witness. -/
def dbC10 : DB :=
  { ir_cron := [⟨1, "Old FatturaPA job", true⟩],
    ir_model_data := [⟨1, "l10n_it_edi", "edi_fatturaPA", "account.edi.format", 7, false⟩],
    account_edi_document_table := true,
    account_edi_document := [⟨1, some 7⟩],
    ir_model := [⟨1, "project.delete.wizard"⟩],
    ir_model_access := [⟨1, 1⟩],
    ir_ui_view := [⟨1, "v", "res.config.settings", some 2, "arch"⟩] }

/-- The empty database used by the C5 counterexample. -/
def dbC5cex : DB := ⟨[], [], false, [], [], [], []⟩

/-- A concrete database where all four preconditions are absent, for the
C5 witness: an inactive matching cron and an active non-matching one, no
`account_edi_document` table, an `ir_model` row of another model, a view
that matches no pattern. -/
def dbC5w : DB :=
  { ir_cron := [⟨1, "Old FatturaPA job", false⟩, ⟨2, "Mail queue", true⟩],
    ir_model_data := [⟨1, "base", "other", "ir.ui.view", 9, false⟩],
    account_edi_document_table := false,
    account_edi_document := [],
    ir_model := [⟨1, "project.task"⟩],
    ir_model_access := [⟨1, 1⟩],
    ir_ui_view := [⟨9, "v", "res.config.settings", some 2, "plain arch"⟩] }

/-- A database with a single view that has one metadata row, used by the
C2 counterexample. -/
def dbC2cex : DB :=
  { ir_cron := [], ir_model_data := [⟨1, "mod", "v1", "ir.ui.view", 1, false⟩],
    account_edi_document_table := false, account_edi_document := [],
    ir_model := [], ir_model_access := [],
    ir_ui_view := [⟨1, "v1", "m", none, "x"⟩] }

/-- A view with two children (2 and 3) and one grandchild (4, under 2)
and no metadata rows, as in the spec example for the cascade. -/
def dbC2w : DB :=
  { ir_cron := [], ir_model_data := [], account_edi_document_table := false,
    account_edi_document := [], ir_model := [], ir_model_access := [],
    ir_ui_view :=
      [ ⟨1, "root", "res.config.settings", some 99, "x"⟩,
        ⟨2, "c1", "m", some 1, "y"⟩,
        ⟨3, "c2", "m", some 1, "y"⟩,
        ⟨4, "gc", "m", some 2, "z"⟩ ] }

/-- The database left by deleting the `dbC2w` tree. -/
def dbC2wOut : DB := ⟨[], [], false, [], [], [], []⟩

/-- The SQL trace of the cascade on `dbC2w` (depth-first: 1, 2, 4, 3). -/
def dbC2wLog : List Stmt :=
  [ Stmt.selectViewChildren 1,
    Stmt.selectViewChildren 2,
    Stmt.selectViewChildren 4, Stmt.deleteMdataView 4, Stmt.deleteView 4,
    Stmt.deleteMdataView 2, Stmt.deleteView 2,
    Stmt.selectViewChildren 3, Stmt.deleteMdataView 3, Stmt.deleteView 3,
    Stmt.deleteMdataView 1, Stmt.deleteView 1 ]


/-- An arch text containing the first deprecated pattern. -/
def archBad : String := "<xpath expr=div[hasclass(" ++ sqc ++ "settings" ++ sqc ++ ")]>"

/-- A database with one matching settings view (10), a child inheriting
from it (20), an unrelated settings view (30), and metadata rows for views
10 and 30, used by the C9 witness. -/
def dbC9w : DB :=
  { ir_cron := [], ir_model_data :=
      [⟨1, "mod", "bad_view", "ir.ui.view", 10, false⟩,
       ⟨2, "mod", "keep_view", "ir.ui.view", 30, false⟩],
    account_edi_document_table := false, account_edi_document := [],
    ir_model := [], ir_model_access := [],
    ir_ui_view :=
      [⟨10, "bad", "res.config.settings", some 1, archBad⟩,
       ⟨20, "child", "m", some 10, "plain"⟩,
       ⟨30, "keep", "res.config.settings", some 1, "fine arch"⟩] }

/-- The state `_fix_incompatible_settings_views` leaves of `dbC9w`. -/
def dbC9wOut : DB :=
  { ir_cron := [], ir_model_data := [⟨2, "mod", "keep_view", "ir.ui.view", 30, false⟩],
    account_edi_document_table := false, account_edi_document := [],
    ir_model := [], ir_model_access := [],
    ir_ui_view := [⟨30, "keep", "res.config.settings", some 1, "fine arch"⟩] }

/-- The SQL trace of `_fix_incompatible_settings_views` on `dbC9w`. -/
def dbC9wLog : List Stmt :=
  [ Stmt.selectViewsPattern ("%hasclass(" ++ sqc ++ "settings" ++ sqc ++ ")%"),
    Stmt.selectViewChildren 10, Stmt.selectViewChildren 20,
    Stmt.deleteMdataView 20, Stmt.deleteView 20,
    Stmt.deleteMdataView 10, Stmt.deleteView 10,
    Stmt.selectViewsPattern ("%hasclass(" ++ sqc ++ sqc ++ "settings" ++ sqc ++ sqc ++ ")%"),
    Stmt.selectViewsPattern ("%@id=" ++ sqc ++ "account_vendor_bills" ++ sqc ++ "%"),
    Stmt.selectViewsPattern ("%@id=" ++ sqc ++ sqc ++ "account_vendor_bills" ++ sqc ++ sqc ++ "%") ]

/-- A database exercising all four repair steps, for the C4 witness. -/
def dbC4w : DB :=
  { ir_cron := [⟨1, "FatturaPA import", true⟩, ⟨2, "Other job", true⟩],
    ir_model_data :=
      [⟨1, "l10n_it_edi", "edi_fatturaPA", "account.edi.format", 7, false⟩,
       ⟨2, "account_edi", "fmt2", "account.edi.format", 8, false⟩,
       ⟨3, "project", "access_project_delete_wizard", "ir.model.access", 5, false⟩,
       ⟨4, "mod", "bad_view", "ir.ui.view", 10, false⟩],
    account_edi_document_table := true,
    account_edi_document := [⟨1, some 8⟩],
    ir_model := [⟨5, "project.delete.wizard"⟩, ⟨6, "project.task"⟩],
    ir_model_access := [⟨1, 5⟩, ⟨2, 6⟩],
    ir_ui_view :=
      [⟨10, "bad", "res.config.settings", some 1, archBad⟩,
       ⟨11, "child", "m", some 10, "plain"⟩,
       ⟨12, "ok", "other", none, "fine"⟩] }

/-- The state after one `migrate` run on `dbC4w`. -/
def dbC4wOut : DB :=
  { ir_cron := [⟨1, "FatturaPA import", false⟩, ⟨2, "Other job", true⟩],
    ir_model_data :=
      [⟨1, "l10n_it_edi", "edi_fatturaPA", "account.edi.format", 7, true⟩,
       ⟨2, "account_edi", "fmt2", "account.edi.format", 8, true⟩],
    account_edi_document_table := true,
    account_edi_document := [⟨1, some 8⟩],
    ir_model := [⟨5, "project.delete.wizard"⟩, ⟨6, "project.task"⟩],
    ir_model_access := [⟨2, 6⟩],
    ir_ui_view := [⟨12, "ok", "other", none, "fine"⟩] }

/-- A database whose view inheritance has a 2-cycle: view 1 inherits from
view 2 and view 2 inherits from view 1 (used to show the cascade does not
terminate on cycles). -/
def dbC8cyc : DB :=
  { ir_cron := [], ir_model_data := [], account_edi_document_table := false,
    account_edi_document := [], ir_model := [], ir_model_access := [],
    ir_ui_view := [⟨1, "a", "m", some 2, "x"⟩, ⟨2, "b", "m", some 1, "y"⟩] }

/-- An acyclic three-view chain (2 inherits from 1, 3 from 2), used by
the C8 witness. -/
def dbC8w : DB :=
  { ir_cron := [], ir_model_data := [], account_edi_document_table := false,
    account_edi_document := [], ir_model := [], ir_model_access := [],
    ir_ui_view :=
      [⟨1, "root", "m", none, "x"⟩, ⟨2, "c", "m", some 1, "y"⟩, ⟨3, "gc", "m", some 2, "z"⟩] }


/-! ## General helper lemmas -/

/-- A map whose function fixes every element of the list is the identity. -/
theorem listMapId {α : Type} (f : α → α) :
    ∀ l : List α, (∀ x ∈ l, f x = x) → l.map f = l := by
  intro l h
  induction l with
  | nil => rfl
  | cons a t ih =>
    simp only [List.map_cons]
    rw [h a (by simp), ih (fun x hx => h x (by simp [hx]))]

/-! ## Claims about the sale order line module -/

/-- C1. The claim says every subtotal-driven price derivation (inverse
method, subtotal on-change handler, write override) rejects quantity ≤ 0
with a validation error, in particular quantity = 0.  The code instead
guards each of the three paths with Python truthiness of the quantity, so
quantity = 0 skips the whole block: no error is raised, the inverse and
on-change silently do nothing, and the write override stores the vals
unchanged.  Only strictly negative quantities reach the explicit
`quantity <= 0` check of the source. -/
theorem qtyZeroSubtotalNoError :
    inverseManualSubtotal ⟨0, 5, 10⟩ = Except.ok ⟨0, 5, 10⟩ ∧
    onchangeManualSubtotal ⟨0, 5, 10⟩ = Except.ok ⟨0, 5, 10⟩ ∧
    writeLine ⟨1, 5, 5⟩ ⟨some 0, none, some 10⟩ = Except.ok ⟨0, 5, 10⟩ ∧
    inverseManualSubtotal ⟨-2, 5, 10⟩ = Except.error userErrMsg := by
  decide

/-- C3. Round-trip: for every quantity q > 0 and every unit price p,
computing the subtotal from (q, p) via `_compute_manual_subtotal` and then
applying `_inverse_manual_subtotal` returns the line unchanged, in
particular with unit price p again (when p = 0 the inverse is a silent
no-op, which also preserves p). -/
theorem subtotalPriceRoundTrip (q p s : Rat) (hq : 0 < q) :
    inverseManualSubtotal (computeManualSubtotal ⟨q, p, s⟩) = Except.ok ⟨q, p, q * p⟩ := by
  have hq0 : q ≠ 0 := ne_of_gt hq
  unfold computeManualSubtotal inverseManualSubtotal
  by_cases hp : p = 0
  · subst hp
    simp
  · have hqp : q * p ≠ 0 := mul_ne_zero hq0 hp
    simp only [if_pos (And.intro hq0 hqp), if_neg (not_le.mpr hq)]
    have : q * p / q = p := by
      rw [mul_comm, mul_div_assoc, div_self hq0, mul_one]
    rw [this]

/-- Witness for C3 at q = 3, p = 10. -/
theorem subtotalPriceRoundTrip_witness :
    inverseManualSubtotal (computeManualSubtotal ⟨3, 10, 0⟩) = Except.ok ⟨3, 10, 30⟩ := by
  have h := subtotalPriceRoundTrip 3 10 0 (by norm_num)
  have h30 : (3 : Rat) * 10 = 30 := by norm_num
  rw [h30] at h
  exact h

/-- C6 counterexample. The claim says every write touching the subtotal
field with quantity > 0 recomputes the unit price as subtotal/quantity.
With subtotal value 0 the truthiness guard skips the recomputation: here
quantity 2 > 0 and subtotal 0 are written, the price stays 7 instead of
becoming 0/2 = 0, and the invariant subtotal = quantity × price fails. -/
theorem writeZeroSubtotalSkips :
    writeLine ⟨1, 7, 7⟩ ⟨some 2, none, some 0⟩ = Except.ok ⟨2, 7, 0⟩ ∧
    (7 : Rat) ≠ 0 / 2 ∧ (0 : Rat) ≠ 2 * 7 := by
  refine ⟨by decide, by norm_num, by norm_num⟩

/-- C6 amended: on a create or write whose vals carry a nonzero subtotal
value, with positive quantity (taken from the vals when the key is
present, else from the line), the unit price is recomputed as
subtotal/quantity, so subtotal = quantity × price holds afterwards; a
zero subtotal value skips the recomputation. -/
theorem writeCreateRecomputePrice (l : SOLine) (pv : Option Rat) (s q : Rat)
    (hs : s ≠ 0) (hq : 0 < q) :
    writeLine l ⟨some q, pv, some s⟩ = Except.ok ⟨q, s / q, s⟩ ∧
    (l.product_uom_qty = q → writeLine l ⟨none, pv, some s⟩ = Except.ok ⟨q, s / q, s⟩) ∧
    createLine ⟨some q, pv, some s⟩ = Except.ok ⟨q, s / q, s⟩ ∧
    s = q * (s / q) := by
  have hq0 : q ≠ 0 := ne_of_gt hq
  refine ⟨?_, ?_, ?_, ?_⟩
  · unfold writeLine
    simp only [if_pos (And.intro hq0 hs), if_neg (not_le.mpr hq)]
    rfl
  · intro hl
    unfold writeLine
    rw [hl]
    simp only [if_pos (And.intro hq0 hs), if_neg (not_le.mpr hq)]
    unfold applyVals
    simp [hl]
  · unfold createLine
    simp only [if_pos (And.intro hs hq0), if_neg (not_le.mpr hq)]
    rfl
  · rw [mul_comm, div_mul_cancel₀ s hq0]

/-- Witness for C6 at the spec example: a line (qty 3, price 10,
subtotal 30); writing subtotal 45 makes the price 15. -/
theorem writeCreateRecomputePrice_witness :
    writeLine ⟨3, 10, 30⟩ ⟨none, none, some 45⟩ = Except.ok ⟨3, 15, 45⟩ ∧
    writeLine ⟨3, 10, 30⟩ ⟨some 3, none, some 45⟩ = Except.ok ⟨3, 15, 45⟩ := by
  have h := writeCreateRecomputePrice ⟨3, 10, 30⟩ none 45 3 (by norm_num) (by norm_num)
  have h15 : (45 : Rat) / 3 = 15 := by norm_num
  rw [h15] at h
  exact ⟨h.2.1 rfl, h.1⟩

/-- C7. When quantity and unit price change together (not via the
subtotal field), the subtotal is recomputed forward as quantity × price
for all values: `_compute_manual_subtotal` does so unconditionally, and
the full update flow (field update, `_onchange_qty_price`, then the
stored recompute) therefore ends with subtotal = q × p even when the
guarded on-change handler skipped (q = 0 or p = 0). -/
theorem qtyPriceForwardRecompute :
    (∀ l : SOLine,
        (computeManualSubtotal l).manual_price_subtotal = l.product_uom_qty * l.price_unit) ∧
    (∀ (l : SOLine) (q p : Rat), updateQtyPrice l q p = ⟨q, p, q * p⟩) := by
  constructor
  · intro l
    rfl
  · intro l q p
    unfold updateQtyPrice onchangeQtyPrice computeManualSubtotal
    by_cases h : q ≠ 0 ∧ p ≠ 0
    · rw [if_pos h]
    · rw [if_neg h]

/-! ## Claims about the migration script: simple guards -/

/-- C10. `migrate` with a falsy version argument (None or the empty
string) returns immediately: no SQL statement is executed and the database
state is unchanged. -/
theorem migrateFalsyNoop (fuel : Nat) (version : Option String) (db : DB)
    (h : truthyVersion version = false) :
    migrate fuel version db = some (db, []) := by
  simp [migrate, h]

/-- Witness for C10 at `version = none` and `version = some ""`. -/
theorem migrateFalsyNoop_witness :
    migrate 3 none dbC10 = some (dbC10, []) ∧
    migrate 3 (some "") dbC10 = some (dbC10, []) :=
  ⟨migrateFalsyNoop 3 none dbC10 rfl, migrateFalsyNoop 3 (some "") dbC10 rfl⟩

/-- C5 counterexample. The claim says each of the four repair steps first
checks an existence precondition and performs no further SQL when it is
absent.  The FatturaPA cron step checks nothing: on a database with no
cron rows at all (precondition absent) it still executes its UPDATE
statement, a data-modifying statement rather than an existence check. -/
theorem cronStepAlwaysUpdates :
    dbC5cex.ir_cron = [] ∧
    (fixFatturapaCron dbC5cex).2 = [Stmt.updateCronDeactivate] ∧
    Stmt.isMutation Stmt.updateCronDeactivate = true := by
  decide

/-- C5 amended: the EDI-format step and the project-wizard step check an
existence precondition and perform no further SQL when it is absent; the
settings-views step only issues its four pattern SELECTs and no further
SQL when no view matches; the cron step performs no precondition check and
always executes its single guarded UPDATE, which leaves the state
unchanged when no active matching cron row exists. -/
theorem stepsGuarded (db : DB) :
    ((∀ c ∈ db.ir_cron, (likeMatch c.cron_name "%FatturaPA%" && c.active) = false) →
        fixFatturapaCron db = (db, [Stmt.updateCronDeactivate])) ∧
    (db.account_edi_document_table = false →
        fixEdiFormatNoupdate db = (db, [Stmt.checkEdiDocTable])) ∧
    ((∀ m ∈ db.ir_model, ¬(m.model = "project.delete.wizard")) →
        fixProjectDeleteWizard db = (db, [Stmt.selectProjectWizardModel])) ∧
    ((∀ pat ∈ problematicPatterns, selectProblemViews db pat = []) → ∀ fuel,
        fixIncompatibleSettingsViews fuel db =
          some (db, problematicPatterns.map Stmt.selectViewsPattern)) ∧
    (problematicPatterns.map Stmt.selectViewsPattern).all (fun st => !st.isMutation) = true ∧
    Stmt.isMutation Stmt.checkEdiDocTable = false ∧
    Stmt.isMutation Stmt.selectProjectWizardModel = false := by
  refine ⟨?_, ?_, ?_, ?_, by decide, rfl, rfl⟩
  · intro h
    unfold fixFatturapaCron
    rw [listMapId cronFix db.ir_cron (fun c hc => by unfold cronFix; rw [if_neg]; simp [h c hc])]
  · intro h
    simp [fixEdiFormatNoupdate, h]
  · intro h
    unfold fixProjectDeleteWizard
    rw [List.filter_eq_nil_iff.mpr (fun m hm => by simpa using h m hm)]
    rfl
  · intro h fuel
    simp only [problematicPatterns, List.mem_cons, List.not_mem_nil, or_false,
      forall_eq_or_imp, forall_eq] at h
    obtain ⟨h1, h2, h3, h4⟩ := h
    simp [fixIncompatibleSettingsViews, fixViewsPatternList, problematicPatterns,
      h1, h2, h3, h4, cascadeMany]

/-- Witness for C5 on `dbC5w`. -/
theorem stepsGuarded_witness :
    fixFatturapaCron dbC5w = (dbC5w, [Stmt.updateCronDeactivate]) ∧
    fixEdiFormatNoupdate dbC5w = (dbC5w, [Stmt.checkEdiDocTable]) ∧
    fixProjectDeleteWizard dbC5w = (dbC5w, [Stmt.selectProjectWizardModel]) ∧
    fixIncompatibleSettingsViews 2 dbC5w =
      some (dbC5w, problematicPatterns.map Stmt.selectViewsPattern) := by
  have h := stepsGuarded dbC5w
  exact ⟨h.1 (by decide), h.2.1 (by decide), h.2.2.1 (by decide),
    h.2.2.2.1 (by decide) 2⟩

/-! ## Lemmas about the cascading view deletion -/

/-- Frame property of the cascade: only `ir_ui_view` and `ir_model_data`
rows can be removed; every other table (and the table-existence flag) is
untouched. -/
theorem cascadeMany_frame :
    ∀ (fuel : Nat) (ids : List Nat) (db db2 : DB) (n : Nat) (lg : List Stmt),
      cascadeMany fuel db ids = some (db2, n, lg) →
      db2.ir_ui_view.Sublist db.ir_ui_view ∧
      db2.ir_model_data.Sublist db.ir_model_data ∧
      db2.ir_cron = db.ir_cron ∧
      db2.account_edi_document_table = db.account_edi_document_table ∧
      db2.account_edi_document = db.account_edi_document ∧
      db2.ir_model = db.ir_model ∧
      db2.ir_model_access = db.ir_model_access := by
  intro fuel
  induction fuel with
  | zero =>
    intro ids db db2 n lg h
    cases ids with
    | nil =>
      simp only [cascadeMany, Option.some.injEq, Prod.mk.injEq] at h
      obtain ⟨h1, _, _⟩ := h
      subst h1
      simp [List.Sublist.refl]
    | cons a t => simp [cascadeMany] at h
  | succ f ih =>
    intro ids db db2 n lg h
    cases ids with
    | nil =>
      simp only [cascadeMany, Option.some.injEq, Prod.mk.injEq] at h
      obtain ⟨h1, _, _⟩ := h
      subst h1
      simp [List.Sublist.refl]
    | cons vid rest =>
      simp only [cascadeMany] at h
      split at h
      · exact absurd h (by simp)
      · rename_i db1 n1 l1 heq1
        split at h
        · exact absurd h (by simp)
        · rename_i db4 n2 l2 heq2
          simp only [Option.some.injEq, Prod.mk.injEq] at h
          obtain ⟨hdb, hn, hlg⟩ := h
          subst hdb
          obtain ⟨s1v, s1m, s1a, s1b, s1c, s1d, s1e⟩ := ih _ _ _ _ _ heq1
          obtain ⟨s2v, s2m, s2a, s2b, s2c, s2d, s2e⟩ := ih _ _ _ _ _ heq2
          refine ⟨?_, ?_, ?_, ?_, ?_, ?_, ?_⟩
          · exact (s2v.trans (List.filter_sublist _)).trans s1v
          · exact (s2m.trans (List.filter_sublist _)).trans s1m
          · simpa [s1a] using s2a
          · simpa [s1b] using s2b
          · simpa [s1c] using s2c
          · simpa [s1d] using s2d
          · simpa [s1e] using s2e

/-- More fuel never changes a successful cascade run. -/
theorem cascadeMany_mono :
    ∀ (fuel fuel2 : Nat) (ids : List Nat) (db : DB) (out : DB × Nat × List Stmt),
      fuel ≤ fuel2 → cascadeMany fuel db ids = some out →
      cascadeMany fuel2 db ids = some out := by
  intro fuel
  induction fuel with
  | zero =>
    intro fuel2 ids db out hle h
    cases ids with
    | nil => cases fuel2 <;> simpa [cascadeMany] using h
    | cons a t => simp [cascadeMany] at h
  | succ f ih =>
    intro fuel2 ids db out hle h
    cases ids with
    | nil => cases fuel2 <;> simpa [cascadeMany] using h
    | cons vid rest =>
      obtain ⟨f2, rfl⟩ : ∃ g, fuel2 = g + 1 := ⟨fuel2 - 1, by omega⟩
      have hf : f ≤ f2 := by omega
      simp only [cascadeMany] at h ⊢
      split at h
      · exact absurd h (by simp)
      · rename_i db1 n1 l1 heq1
        rw [ih f2 _ _ _ hf heq1]
        split at h
        · exact absurd h (by simp)
        · rename_i db4 n2 l2 heq2
          rw [ih f2 _ _ _ hf heq2]
          exact h

/-- After a successful cascade, no view row with any of the requested ids
remains. -/
theorem cascadeMany_rootAbsent :
    ∀ (fuel : Nat) (ids : List Nat) (db db2 : DB) (n : Nat) (lg : List Stmt),
      cascadeMany fuel db ids = some (db2, n, lg) →
      ∀ i ∈ ids, ∀ w ∈ db2.ir_ui_view, w.id ≠ i := by
  intro fuel
  induction fuel with
  | zero =>
    intro ids db db2 n lg h
    cases ids with
    | nil => simp
    | cons a t => simp [cascadeMany] at h
  | succ f ih =>
    intro ids db db2 n lg h
    cases ids with
    | nil => simp
    | cons vid rest =>
      simp only [cascadeMany] at h
      split at h
      · exact absurd h (by simp)
      · rename_i db1 n1 l1 heq1
        split at h
        · exact absurd h (by simp)
        · rename_i db4 n2 l2 heq2
          simp only [Option.some.injEq, Prod.mk.injEq] at h
          obtain ⟨hdb, hn, hlg⟩ := h
          subst hdb
          intro i hi w hw
          obtain ⟨s2v, _⟩ := cascadeMany_frame _ _ _ _ _ _ heq2
          rcases List.mem_cons.mp hi with hi1 | hi2
          · subst hi1
            have hw3 := s2v.subset hw
            simp only [List.mem_filter] at hw3
            simpa using hw3.2
          · exact ih _ _ _ _ _ heq2 i hi2 w hw


/-- Deleting the rows with a given id from a view table whose ids are
pairwise distinct removes exactly one row when one was present. -/
theorem filterNeLength (vid : Nat) :
    ∀ l : List View, (l.map View.id).Nodup →
      (l.filter (fun v => v.id != vid)).length
        + (if l.any (fun v => v.id == vid) then 1 else 0) = l.length := by
  intro l
  induction l with
  | nil => simp
  | cons a t ih =>
    intro hn
    simp only [List.map_cons, List.nodup_cons] at hn
    obtain ⟨ha, ht⟩ := hn
    by_cases hv : a.id = vid
    · have htv : ∀ v ∈ t, (fun v => v.id != vid) v = true := by
        intro v hvmem
        simp only [bne_iff_ne, ne_eq, decide_eq_true_eq]
        intro heq
        apply ha
        rw [hv, ← heq]
        exact List.mem_map_of_mem View.id hvmem
      rw [List.filter_cons_of_neg (by simp [hv]), List.filter_eq_self.mpr htv]
      have hany : (a :: t).any (fun v => v.id == vid) = true := by simp [hv]
      rw [hany]
      simp
    · rw [List.filter_cons_of_pos (by simp [hv])]
      have hany : (a :: t).any (fun v => v.id == vid) = t.any (fun v => v.id == vid) := by
        simp [hv]
      rw [hany]
      have := ih ht
      simp only [List.length_cons]
      omega

/-- The count returned by the cascade equals the number of `ir_ui_view`
rows it removed, provided view ids are pairwise distinct. -/
theorem cascadeMany_count :
    ∀ (fuel : Nat) (ids : List Nat) (db db2 : DB) (n : Nat) (lg : List Stmt),
      (db.ir_ui_view.map View.id).Nodup →
      cascadeMany fuel db ids = some (db2, n, lg) →
      db2.ir_ui_view.length + n = db.ir_ui_view.length := by
  intro fuel
  induction fuel with
  | zero =>
    intro ids db db2 n lg hnd h
    cases ids with
    | nil =>
      simp only [cascadeMany, Option.some.injEq, Prod.mk.injEq] at h
      obtain ⟨h1, h2, _⟩ := h
      subst h1
      omega
    | cons a t => simp [cascadeMany] at h
  | succ f ih =>
    intro ids db db2 n lg hnd h
    cases ids with
    | nil =>
      simp only [cascadeMany, Option.some.injEq, Prod.mk.injEq] at h
      obtain ⟨h1, h2, _⟩ := h
      subst h1
      omega
    | cons vid rest =>
      simp only [cascadeMany] at h
      split at h
      · exact absurd h (by simp)
      · rename_i db1 n1 l1 heq1
        split at h
        · exact absurd h (by simp)
        · rename_i db4 n2 l2 heq2
          simp only [Option.some.injEq, Prod.mk.injEq] at h
          obtain ⟨hdb, hn, hlg⟩ := h
          subst hdb
          obtain ⟨s1v, _⟩ := cascadeMany_frame _ _ _ _ _ _ heq1
          have hnd1 : (db1.ir_ui_view.map View.id).Nodup := hnd.sublist (s1v.map View.id)
          have hc1 := ih _ _ _ _ _ hnd heq1
          have hndX : ((db1.ir_ui_view.filter (fun v => v.id != vid)).map View.id).Nodup :=
            hnd1.sublist ((List.filter_sublist _).map View.id)
          have hc2 := ih _ _ _ _ _ (by simpa using hndX) heq2
          dsimp only at hc2
          have hf := filterNeLength vid db1.ir_ui_view hnd1
          by_cases he : db1.ir_ui_view.any (fun v => v.id == vid) = true
          · simp only [he, if_true] at hn hf
            omega
          · simp only [eq_false_of_ne_true he, if_false, Bool.false_eq_true] at hn hf
            omega

/-- Every view removed by the cascade is reachable from one of the
requested ids through child steps of the starting database. -/
theorem cascadeMany_descent :
    ∀ (fuel : Nat) (ids : List Nat) (db db2 : DB) (n : Nat) (lg : List Stmt),
      cascadeMany fuel db ids = some (db2, n, lg) →
      ∀ v ∈ db.ir_ui_view, v ∉ db2.ir_ui_view →
        ∃ i ∈ ids, Relation.ReflTransGen (childStep db) i v.id := by
  intro fuel
  induction fuel with
  | zero =>
    intro ids db db2 n lg h v hv hnv
    cases ids with
    | nil =>
      simp only [cascadeMany, Option.some.injEq, Prod.mk.injEq] at h
      obtain ⟨h1, _, _⟩ := h
      subst h1
      exact absurd hv hnv
    | cons a t => simp [cascadeMany] at h
  | succ f ih =>
    intro ids db db2 n lg h v hv hnv
    cases ids with
    | nil =>
      simp only [cascadeMany, Option.some.injEq, Prod.mk.injEq] at h
      obtain ⟨h1, _, _⟩ := h
      subst h1
      exact absurd hv hnv
    | cons vid rest =>
      simp only [cascadeMany] at h
      split at h
      · exact absurd h (by simp)
      · rename_i db1 n1 l1 heq1
        split at h
        · exact absurd h (by simp)
        · rename_i db4 n2 l2 heq2
          simp only [Option.some.injEq, Prod.mk.injEq] at h
          obtain ⟨hdb, hn, hlg⟩ := h
          subst hdb
          obtain ⟨s1v, _⟩ := cascadeMany_frame _ _ _ _ _ _ heq1
          by_cases h1m : v ∈ db1.ir_ui_view
          · by_cases h3m : v ∈ db1.ir_ui_view.filter (fun w => w.id != vid)
            · obtain ⟨i, hi, hrtg⟩ := ih _ _ _ _ _ heq2 v h3m hnv
              refine ⟨i, List.mem_cons_of_mem _ hi, hrtg.mono ?_⟩
              intro a b hab
              obtain ⟨w, hw, hwid, hwinh⟩ := hab
              exact ⟨w, s1v.subset ((List.filter_sublist _).subset hw), hwid, hwinh⟩
            · have hvid : v.id = vid := by
                by_contra hne
                exact h3m (List.mem_filter.mpr ⟨h1m, by simpa using hne⟩)
              refine ⟨vid, by simp, ?_⟩
              rw [← hvid]
          · obtain ⟨i, hi, hrtg⟩ := ih _ _ _ _ _ heq1 v hv h1m
            refine ⟨vid, by simp, ?_⟩
            obtain ⟨c, hc, hci⟩ := List.mem_map.mp hi
            have hcdb : childStep db vid i := by
              simp only [viewChildren, List.mem_filter] at hc
              exact ⟨c, hc.1, hci, by simpa using hc.2⟩
            exact Relation.ReflTransGen.head hcdb hrtg

/-- Every `ir_model_data` row removed by the cascade has model
`ir.ui.view` and names a view id that was requested or present, and no
view row with that id survives. -/
theorem cascadeMany_mdataDeleted :
    ∀ (fuel : Nat) (ids : List Nat) (db db2 : DB) (n : Nat) (lg : List Stmt),
      cascadeMany fuel db ids = some (db2, n, lg) →
      ∀ d ∈ db.ir_model_data, d ∉ db2.ir_model_data →
        d.model = "ir.ui.view" ∧
        (d.res_id ∈ ids ∨ ∃ w ∈ db.ir_ui_view, w.id = d.res_id) ∧
        (∀ w ∈ db2.ir_ui_view, w.id ≠ d.res_id) := by
  intro fuel
  induction fuel with
  | zero =>
    intro ids db db2 n lg h d hd hnd
    cases ids with
    | nil =>
      simp only [cascadeMany, Option.some.injEq, Prod.mk.injEq] at h
      obtain ⟨h1, _, _⟩ := h
      subst h1
      exact absurd hd hnd
    | cons a t => simp [cascadeMany] at h
  | succ f ih =>
    intro ids db db2 n lg h d hd hnd
    cases ids with
    | nil =>
      simp only [cascadeMany, Option.some.injEq, Prod.mk.injEq] at h
      obtain ⟨h1, _, _⟩ := h
      subst h1
      exact absurd hd hnd
    | cons vid rest =>
      simp only [cascadeMany] at h
      split at h
      · exact absurd h (by simp)
      · rename_i db1 n1 l1 heq1
        split at h
        · exact absurd h (by simp)
        · rename_i db4 n2 l2 heq2
          simp only [Option.some.injEq, Prod.mk.injEq] at h
          obtain ⟨hdb, hn, hlg⟩ := h
          subst hdb
          obtain ⟨s1v, s1m, _⟩ := cascadeMany_frame _ _ _ _ _ _ heq1
          obtain ⟨s2v, s2m, _⟩ := cascadeMany_frame _ _ _ _ _ _ heq2
          by_cases h1m : d ∈ db1.ir_model_data
          · by_cases h2m : d ∈ db1.ir_model_data.filter
                (fun e => !(e.res_id == vid && e.model == "ir.ui.view"))
            · -- deleted while processing the rest of the worklist
              obtain ⟨hmodel, hres, habs⟩ := ih _ _ _ _ _ heq2 d h2m hnd
              refine ⟨hmodel, ?_, habs⟩
              rcases hres with hres | ⟨w, hw, hwid⟩
              · exact Or.inl (List.mem_cons_of_mem _ hres)
              · exact Or.inr ⟨w, s1v.subset ((List.filter_sublist _).subset hw), hwid⟩
            · -- deleted by the DELETE FROM ir_model_data of this view id
              have hdm : d.res_id = vid ∧ d.model = "ir.ui.view" := by
                by_contra hcon
                refine h2m (List.mem_filter.mpr ⟨h1m, ?_⟩)
                simp only [not_and] at hcon
                by_cases hr : d.res_id = vid
                · simp [hr, hcon hr]
                · simp [hr]
              refine ⟨hdm.2, Or.inl (by simp [hdm.1]), ?_⟩
              intro w hw
              have hw3 := s2v.subset hw
              simp only [List.mem_filter] at hw3
              rw [hdm.1]
              simpa using hw3.2
          · -- deleted during the children pass
            obtain ⟨hmodel, hres, habs⟩ := ih _ _ _ _ _ heq1 d hd h1m
            refine ⟨hmodel, ?_, ?_⟩
            · rcases hres with hres | hres
              · obtain ⟨c, hc, hci⟩ := List.mem_map.mp hres
                simp only [viewChildren, List.mem_filter] at hc
                exact Or.inr ⟨c, hc.1, hci⟩
              · exact Or.inr hres
            · intro w hw
              exact habs w ((List.filter_sublist _).subset (s2v.subset hw))

/-- Unfolding of one cascade step on the head of the worklist. -/
theorem cascadeMany_succ_cons (f : Nat) (db : DB) (vid : Nat) (rest : List Nat) :
    cascadeMany (f + 1) db (vid :: rest) =
      match cascadeMany f db ((viewChildren db vid).map View.id) with
      | none => none
      | some (db1, n1, l1) =>
        match cascadeMany f (viewDelete db1 vid) rest with
        | none => none
        | some (db4, n2, l2) =>
          some (db4, n1 + (if db1.ir_ui_view.any (fun v => v.id == vid) then 1 else 0) + n2,
            Stmt.selectViewChildren vid ::
              (l1 ++ [Stmt.deleteMdataView vid, Stmt.deleteView vid] ++ l2)) := rfl

/-- The cascade on an empty worklist does nothing, for any fuel. -/
theorem cascadeMany_nil (f : Nat) (db : DB) : cascadeMany f db [] = some (db, 0, []) := by
  cases f <;> rfl

/-- Termination on acyclic databases: given a rank function that
decreases from parent to child along every `inherit_id` edge (the
standard certificate that the parent-reference relation has no cycles),
some fuel makes the cascade succeed. -/
theorem cascadeTerminates (V0 : List View) (rnk : Nat → Nat)
    (hr : ∀ v ∈ V0, ∀ p, v.inherit_id = some p → rnk v.id < rnk p) :
    ∀ (r : Nat) (ids : List Nat) (db : DB),
      (∀ v ∈ db.ir_ui_view, v ∈ V0) →
      (∀ i ∈ ids, rnk i ≤ r) →
      ∃ fuel out, cascadeMany fuel db ids = some out := by
  intro r
  induction r with
  | zero =>
    intro ids
    induction ids with
    | nil => exact fun db _ _ => ⟨0, (db, 0, []), rfl⟩
    | cons vid rest ihl =>
      intro db hsub hrk
      have hch : viewChildren db vid = [] := by
        rw [List.eq_nil_iff_forall_not_mem]
        intro c hc
        simp only [viewChildren, List.mem_filter] at hc
        have h1 := hr c (hsub c hc.1) vid (by simpa using hc.2)
        have h2 := hrk vid (by simp)
        omega
      have hsub3 : ∀ v ∈ (viewDelete db vid).ir_ui_view, v ∈ V0 := by
        intro v hv
        exact hsub v ((List.filter_sublist _).subset hv)
      obtain ⟨f2, out2, hout2⟩ :=
        ihl (viewDelete db vid) hsub3 (fun i hi => hrk i (List.mem_cons_of_mem _ hi))
      obtain ⟨db4, n2, l2⟩ := out2
      refine ⟨f2 + 1,
        (db4, 0 + (if db.ir_ui_view.any (fun v => v.id == vid) then 1 else 0) + n2,
          Stmt.selectViewChildren vid ::
            ([] ++ [Stmt.deleteMdataView vid, Stmt.deleteView vid] ++ l2)), ?_⟩
      rw [cascadeMany_succ_cons, hch]
      simp only [List.map_nil, cascadeMany_nil]
      rw [hout2]
  | succ r ihr =>
    intro ids
    induction ids with
    | nil => exact fun db _ _ => ⟨0, (db, 0, []), rfl⟩
    | cons vid rest ihl =>
      intro db hsub hrk
      have hchrk : ∀ i ∈ (viewChildren db vid).map View.id, rnk i ≤ r := by
        intro i hi
        obtain ⟨c, hc, hci⟩ := List.mem_map.mp hi
        subst hci
        simp only [viewChildren, List.mem_filter] at hc
        have h1 := hr c (hsub c hc.1) vid (by simpa using hc.2)
        have h2 := hrk vid (by simp)
        omega
      obtain ⟨f1, out1, hout1⟩ := ihr ((viewChildren db vid).map View.id) db hsub hchrk
      obtain ⟨db1, n1, l1⟩ := out1
      obtain ⟨s1v, _⟩ := cascadeMany_frame _ _ _ _ _ _ hout1
      have hsub3 : ∀ v ∈ (viewDelete db1 vid).ir_ui_view, v ∈ V0 := by
        intro v hv
        exact hsub v (s1v.subset ((List.filter_sublist _).subset hv))
      obtain ⟨f2, out2, hout2⟩ :=
        ihl (viewDelete db1 vid) hsub3 (fun i hi => hrk i (List.mem_cons_of_mem _ hi))
      obtain ⟨db4, n2, l2⟩ := out2
      refine ⟨max f1 f2 + 1,
        (db4, n1 + (if db1.ir_ui_view.any (fun v => v.id == vid) then 1 else 0) + n2,
          Stmt.selectViewChildren vid ::
            (l1 ++ [Stmt.deleteMdataView vid, Stmt.deleteView vid] ++ l2)), ?_⟩
      rw [cascadeMany_succ_cons]
      rw [cascadeMany_mono f1 (max f1 f2) _ _ _ (Nat.le_max_left _ _) hout1]
      dsimp only
      rw [cascadeMany_mono f2 (max f1 f2) _ _ _ (Nat.le_max_right _ _) hout2]

/-- On the 2-cycle database the cascade runs out of any amount of fuel:
the recursion visits 1, 2, 1, 2, ... and deletes nothing first. -/
theorem dbC8cyc_loops : ∀ fuel,
    cascadeMany fuel dbC8cyc [1] = none ∧ cascadeMany fuel dbC8cyc [2] = none := by
  intro fuel
  induction fuel with
  | zero => exact ⟨rfl, rfl⟩
  | succ f ih =>
    constructor
    · rw [cascadeMany_succ_cons]
      have h1 : (viewChildren dbC8cyc 1).map View.id = [2] := by decide
      rw [h1, ih.2]
    · rw [cascadeMany_succ_cons]
      have h2 : (viewChildren dbC8cyc 2).map View.id = [1] := by decide
      rw [h2, ih.1]

/-- C8. On every finite view database whose parent-reference relation
contains no cycles (witnessed by a rank function decreasing along every
`inherit_id` edge), `_delete_view_cascade` terminates on every view id
(some fuel suffices); and termination fails when the relation has a
cycle: on a concrete 2-cycle the recursion exceeds every fuel bound. -/
theorem cascadeTerminationAcyclicOnly :
    (∀ (db : DB) (rnk : Nat → Nat),
        (∀ v ∈ db.ir_ui_view, ∀ p, v.inherit_id = some p → rnk v.id < rnk p) →
        ∀ vid, ∃ fuel out, deleteViewCascade fuel db vid = some out) ∧
    (∀ fuel, deleteViewCascade fuel dbC8cyc 1 = none) := by
  constructor
  · intro db rnk hr vid
    obtain ⟨fuel, out, hout⟩ := cascadeTerminates db.ir_ui_view rnk hr (rnk vid) [vid] db
        (fun v hv => hv)
        (by intro i hi; simp only [List.mem_singleton] at hi; subst hi; exact le_refl _)
    exact ⟨fuel, out, hout⟩
  · intro fuel
    exact (dbC8cyc_loops fuel).1

/-- Witness for C8: the acyclic chain terminates, the 2-cycle does not. -/
theorem cascadeTerminationAcyclicOnly_witness :
    (∃ fuel out, deleteViewCascade fuel dbC8w 1 = some out) ∧
    deleteViewCascade 5 dbC8cyc 1 = none := by
  constructor
  · refine cascadeTerminationAcyclicOnly.1 dbC8w (fun i => 10 - i) ?_ 1
    intro v hv p hp
    simp only [dbC8w, List.mem_cons, List.not_mem_nil, or_false] at hv
    rcases hv with rfl | rfl | rfl
    · simp at hp
    · simp only at hp
      rcases hp with rfl | h
      · norm_num
    · simp only at hp
      rcases hp with rfl | h
      · norm_num
  · exact cascadeTerminationAcyclicOnly.2 5

/-- C2 counterexample. The claim says `_delete_view_cascade` returns the
count of deleted rows.  On a database with one view (no children) carrying
one `ir_model_data` row, the cascade removes two rows (the view row and
its metadata row) but returns 1: the counter counts deleted view rows
only. -/
theorem cascadeReturnValueNotRowCount :
    (deleteViewCascade 2 dbC2cex 1).map
        (fun r => (r.1.ir_ui_view.length, r.1.ir_model_data.length, r.2.1)) =
      some (0, 0, 1) ∧
    dbC2cex.ir_ui_view.length = 1 ∧ dbC2cex.ir_model_data.length = 1 := by
  decide

/-- C2 amended: for every view id, the cascade first recursively deletes
every view whose `inherit_id` points to it (depth-first), then the view's
`ir_model_data` rows, then the view row itself, and returns the count of
deleted `ir_ui_view` rows only (metadata deletions are not counted): with
pairwise-distinct view ids the returned count plus the surviving view rows
equals the original view rows.  For a view with two children and one
grandchild present in `ir_ui_view` and no metadata rows, exactly four rows
are removed and 4 is returned. -/
theorem cascadeCountEqualsDeletedViews (fuel : Nat) (db db2 : DB) (vid n : Nat)
    (lg : List Stmt) (hnd : (db.ir_ui_view.map View.id).Nodup)
    (h : deleteViewCascade fuel db vid = some (db2, n, lg)) :
    db2.ir_ui_view.length + n = db.ir_ui_view.length :=
  cascadeMany_count fuel [vid] db db2 n lg hnd h

/-- Witness for C2: the two-children-one-grandchild tree loses exactly
its four view rows (no metadata rows existed) and the count is 4. -/
theorem cascadeCountEqualsDeletedViews_witness :
    deleteViewCascade 10 dbC2w 1 = some (dbC2wOut, 4, dbC2wLog) ∧
    dbC2wOut.ir_ui_view.length + 4 = dbC2w.ir_ui_view.length ∧
    dbC2w.ir_ui_view.length = 4 ∧ dbC2w.ir_model_data.length = 0 ∧
    dbC2wOut.ir_model_data.length = 0 :=
  ⟨by decide,
   cascadeCountEqualsDeletedViews 10 dbC2w dbC2wOut 1 4 dbC2wLog (by decide) (by decide),
   by decide, by decide, by decide⟩

/-- Frame property of the pattern loop: only views and metadata shrink,
all other tables are untouched. -/
theorem fixViewsPatternList_frame :
    ∀ (pats : List String) (fuel : Nat) (db db2 : DB) (n : Nat) (lg : List Stmt),
      fixViewsPatternList fuel db pats = some (db2, n, lg) →
      db2.ir_ui_view.Sublist db.ir_ui_view ∧
      db2.ir_model_data.Sublist db.ir_model_data ∧
      db2.ir_cron = db.ir_cron ∧
      db2.account_edi_document_table = db.account_edi_document_table ∧
      db2.account_edi_document = db.account_edi_document ∧
      db2.ir_model = db.ir_model ∧
      db2.ir_model_access = db.ir_model_access := by
  intro pats
  induction pats with
  | nil =>
    intro fuel db db2 n lg h
    simp only [fixViewsPatternList, Option.some.injEq, Prod.mk.injEq] at h
    obtain ⟨h1, _, _⟩ := h
    subst h1
    simp [List.Sublist.refl]
  | cons p ps ih =>
    intro fuel db db2 n lg h
    simp only [fixViewsPatternList] at h
    split at h
    · exact absurd h (by simp)
    · rename_i db1 n1 l1 heq1
      split at h
      · exact absurd h (by simp)
      · rename_i db4 n2 l2 heq2
        simp only [Option.some.injEq, Prod.mk.injEq] at h
        obtain ⟨hdb, hn, hlg⟩ := h
        subst hdb
        obtain ⟨a1, b1, c1, d1, e1, f1, g1⟩ := cascadeMany_frame _ _ _ _ _ _ heq1
        obtain ⟨a2, b2, c2, d2, e2, f2, g2⟩ := ih _ _ _ _ _ heq2
        exact ⟨a2.trans a1, b2.trans b1, c2.trans c1, d2.trans d1, e2.trans e1,
          f2.trans f1, g2.trans g1⟩

/-- Every id selected for a pattern of the list names a present view
satisfying the matcher predicate. -/
theorem selectProblemViews_mem (db : DB) (p : String) (hp : p ∈ problematicPatterns) :
    ∀ i ∈ selectProblemViews db p,
      ∃ m ∈ db.ir_ui_view, m.id = i ∧ viewMatcher m = true := by
  intro i hi
  simp only [selectProblemViews, List.mem_map, List.mem_filter] at hi
  obtain ⟨m, ⟨hm, hcond⟩, hmi⟩ := hi
  simp only [Bool.and_eq_true] at hcond
  obtain ⟨⟨hmodel, hsome⟩, hlike⟩ := hcond
  refine ⟨m, hm, hmi, ?_⟩
  simp only [viewMatcher, Bool.and_eq_true]
  exact ⟨⟨hmodel, hsome⟩, List.any_eq_true.mpr ⟨p, hp, hlike⟩⟩

/-- Rows removed by the pattern loop: every removed view descends from a
matching view, and every removed metadata row belongs to a removed view. -/
theorem fixViewsPatternList_deleted :
    ∀ (pats : List String) (fuel : Nat) (db db2 : DB) (n : Nat) (lg : List Stmt),
      (∀ p ∈ pats, p ∈ problematicPatterns) →
      fixViewsPatternList fuel db pats = some (db2, n, lg) →
      (∀ v ∈ db.ir_ui_view, v ∉ db2.ir_ui_view →
          ∃ m ∈ db.ir_ui_view, viewMatcher m = true ∧
            Relation.ReflTransGen (childStep db) m.id v.id) ∧
      (∀ d ∈ db.ir_model_data, d ∉ db2.ir_model_data →
          d.model = "ir.ui.view" ∧
          ∃ w ∈ db.ir_ui_view, w.id = d.res_id ∧ w ∉ db2.ir_ui_view) := by
  intro pats
  induction pats with
  | nil =>
    intro fuel db db2 n lg hp h
    simp only [fixViewsPatternList, Option.some.injEq, Prod.mk.injEq] at h
    obtain ⟨h1, _, _⟩ := h
    subst h1
    exact ⟨fun v hv hnv => absurd hv hnv, fun d hd hnd => absurd hd hnd⟩
  | cons p ps ih =>
    intro fuel db db2 n lg hp h
    simp only [fixViewsPatternList] at h
    split at h
    · exact absurd h (by simp)
    · rename_i db1 n1 l1 heq1
      split at h
      · exact absurd h (by simp)
      · rename_i db4 n2 l2 heq2
        simp only [Option.some.injEq, Prod.mk.injEq] at h
        obtain ⟨hdb, hn, hlg⟩ := h
        subst hdb
        have hsel := selectProblemViews_mem db p (hp p (by simp))
        obtain ⟨sub1v, sub1m, _⟩ := cascadeMany_frame _ _ _ _ _ _ heq1
        obtain ⟨sub2v, sub2m, _⟩ := fixViewsPatternList_frame _ _ _ _ _ _ heq2
        have ihp : ∀ q ∈ ps, q ∈ problematicPatterns := fun q hq => hp q (by simp [hq])
        constructor
        · intro v hv hnv
          by_cases h1 : v ∈ db1.ir_ui_view
          · obtain ⟨m, hm, hmm, hrtg⟩ := (ih _ _ _ _ _ ihp heq2).1 v h1 hnv
            refine ⟨m, sub1v.subset hm, hmm, hrtg.mono ?_⟩
            intro a b hab
            obtain ⟨w, hw, hwid, hwinh⟩ := hab
            exact ⟨w, sub1v.subset hw, hwid, hwinh⟩
          · obtain ⟨i, hi, hrtg⟩ := cascadeMany_descent _ _ _ _ _ _ heq1 v hv h1
            obtain ⟨m, hm, hmi, hmm⟩ := hsel i hi
            refine ⟨m, hm, hmm, ?_⟩
            rw [hmi]
            exact hrtg
        · intro d hd hnd
          by_cases h1 : d ∈ db1.ir_model_data
          · obtain ⟨hmodel, w, hw, hwid, hwnot⟩ := (ih _ _ _ _ _ ihp heq2).2 d h1 hnd
            exact ⟨hmodel, w, sub1v.subset hw, hwid, hwnot⟩
          · obtain ⟨hmodel, hres, habs⟩ := cascadeMany_mdataDeleted _ _ _ _ _ _ heq1 d hd h1
            refine ⟨hmodel, ?_⟩
            rcases hres with hres | ⟨w, hw, hwid⟩
            · obtain ⟨m, hm, hmi, _⟩ := hsel _ hres
              exact ⟨m, hm, hmi, fun hmem => habs m (sub2v.subset hmem) hmi⟩
            · exact ⟨w, hw, hwid, fun hmem => habs w (sub2v.subset hmem) hwid⟩

/-- C9. `_fix_incompatible_settings_views` deletes only views that either
match the deprecated-settings predicate (model `res.config.settings`,
non-null `inherit_id`, arch matching one of the four patterns) or
transitively inherit from such a view; and every `ir_model_data` row it
deletes has model `ir.ui.view` and belongs to a view that was present and
is deleted.  All other rows survive (removal is the only change: the row
lists only shrink). -/
theorem settingsViewsFrameEffect (fuel : Nat) (db db2 : DB) (lg : List Stmt)
    (h : fixIncompatibleSettingsViews fuel db = some (db2, lg)) :
    (∀ v ∈ db.ir_ui_view, v ∉ db2.ir_ui_view →
        ∃ m ∈ db.ir_ui_view, viewMatcher m = true ∧
          Relation.ReflTransGen (childStep db) m.id v.id) ∧
    (∀ d ∈ db.ir_model_data, d ∉ db2.ir_model_data →
        d.model = "ir.ui.view" ∧
        ∃ w ∈ db.ir_ui_view, w.id = d.res_id ∧ w ∉ db2.ir_ui_view) := by
  simp only [fixIncompatibleSettingsViews] at h
  split at h
  · exact absurd h (by simp)
  · rename_i db1 n1 l1 heq
    simp only [Option.some.injEq, Prod.mk.injEq] at h
    obtain ⟨hdb, hlg⟩ := h
    subst hdb
    exact fixViewsPatternList_deleted _ _ _ _ _ _ (fun q hq => hq) heq

/-- Witness for C9 on `dbC9w`: views 10 and 20 and the metadata row of
view 10 are deleted, view 30 and its metadata survive. -/
theorem settingsViewsFrameEffect_witness :
    (∀ v ∈ dbC9w.ir_ui_view, v ∉ dbC9wOut.ir_ui_view →
        ∃ m ∈ dbC9w.ir_ui_view, viewMatcher m = true ∧
          Relation.ReflTransGen (childStep dbC9w) m.id v.id) ∧
    (∀ d ∈ dbC9w.ir_model_data, d ∉ dbC9wOut.ir_model_data →
        d.model = "ir.ui.view" ∧
        ∃ w ∈ dbC9w.ir_ui_view, w.id = d.res_id ∧ w ∉ dbC9wOut.ir_ui_view) :=
  settingsViewsFrameEffect 5 dbC9w dbC9wOut dbC9wLog (by decide)

/-- The cron deactivation is idempotent on each row. -/
theorem cronFix_idem (c : CronJob) : cronFix (cronFix c) = cronFix c := by
  unfold cronFix
  split
  · simp [cronFix]
  · rfl

/-- Both metadata UPDATEs fix rows whose `noupdate` is already true. -/
theorem mdataFix_noupdate_fixed (linked : List Nat) (y : MData) (h : y.noupdate = true) :
    mdataFatturapaFix y = y ∧ mdataEdiFormatFix linked y = y := by
  constructor <;> simp [mdataFatturapaFix, mdataEdiFormatFix, h]

/-- Each metadata UPDATE either sets `noupdate` or leaves the row. -/
theorem mdataFix_cases (linked : List Nat) (y : MData) :
    ((mdataFatturapaFix y).noupdate = true ∨ mdataFatturapaFix y = y) ∧
    ((mdataEdiFormatFix linked y).noupdate = true ∨ mdataEdiFormatFix linked y = y) := by
  constructor
  · unfold mdataFatturapaFix
    split
    · exact Or.inl rfl
    · exact Or.inr rfl
  · unfold mdataEdiFormatFix
    split
    · exact Or.inl rfl
    · exact Or.inr rfl

/-- Re-applying the two metadata UPDATEs to an already-updated row
changes nothing. -/
theorem mdataFixTwo_idem (linked : List Nat) (x : MData) :
    mdataFatturapaFix (mdataEdiFormatFix linked (mdataFatturapaFix x)) =
      mdataEdiFormatFix linked (mdataFatturapaFix x) ∧
    mdataEdiFormatFix linked (mdataEdiFormatFix linked (mdataFatturapaFix x)) =
      mdataEdiFormatFix linked (mdataFatturapaFix x) := by
  rcases (mdataFix_cases linked x).1 with h1 | h1
  · have hA2 := (mdataFix_noupdate_fixed linked _ h1).2
    rw [hA2]
    exact ⟨(mdataFix_noupdate_fixed linked _ h1).1, hA2⟩
  · rw [h1]
    rcases (mdataFix_cases linked x).2 with h2 | h2
    · have hA := mdataFix_noupdate_fixed linked _ h2
      exact ⟨hA.1, hA.2⟩
    · rw [h2]
      exact ⟨h1, h2⟩

/-- The EDI step only touches `ir_model_data`. -/
theorem fixEdi_fields (db : DB) :
    (fixEdiFormatNoupdate db).1.ir_cron = db.ir_cron ∧
    (fixEdiFormatNoupdate db).1.account_edi_document_table = db.account_edi_document_table ∧
    (fixEdiFormatNoupdate db).1.account_edi_document = db.account_edi_document ∧
    (fixEdiFormatNoupdate db).1.ir_model = db.ir_model ∧
    (fixEdiFormatNoupdate db).1.ir_model_access = db.ir_model_access ∧
    (fixEdiFormatNoupdate db).1.ir_ui_view = db.ir_ui_view := by
  unfold fixEdiFormatNoupdate
  cases hf : db.account_edi_document_table <;> simp [hf]

/-- The wizard step only touches `ir_model_access` and `ir_model_data`. -/
theorem fixWiz_fields (db : DB) :
    (fixProjectDeleteWizard db).1.ir_cron = db.ir_cron ∧
    (fixProjectDeleteWizard db).1.account_edi_document_table = db.account_edi_document_table ∧
    (fixProjectDeleteWizard db).1.account_edi_document = db.account_edi_document ∧
    (fixProjectDeleteWizard db).1.ir_model = db.ir_model ∧
    (fixProjectDeleteWizard db).1.ir_ui_view = db.ir_ui_view := by
  by_cases h : (List.map IrModel.id
      (List.filter (fun m => m.model == "project.delete.wizard") db.ir_model)).isEmpty = true
  · simp [fixProjectDeleteWizard, h]
  · simp [fixProjectDeleteWizard, h]

/-- When no view matches any pattern, the settings-views step issues
only its four SELECTs and changes nothing, whatever the fuel. -/
theorem fixIncompatibleNoMatches (db : DB)
    (h : ∀ pat ∈ problematicPatterns, selectProblemViews db pat = []) (fuel : Nat) :
    fixIncompatibleSettingsViews fuel db =
      some (db, problematicPatterns.map Stmt.selectViewsPattern) := by
  simp only [problematicPatterns, List.mem_cons, List.not_mem_nil, or_false,
    forall_eq_or_imp, forall_eq] at h
  obtain ⟨h1, h2, h3, h4⟩ := h
  simp [fixIncompatibleSettingsViews, fixViewsPatternList, problematicPatterns,
    h1, h2, h3, h4, cascadeMany]

/-- After the pattern loop, no surviving view matches any processed
pattern. -/
theorem fixViewsPatternList_clears :
    ∀ (pats : List String) (fuel : Nat) (db db2 : DB) (n : Nat) (lg : List Stmt),
      fixViewsPatternList fuel db pats = some (db2, n, lg) →
      ∀ v ∈ db2.ir_ui_view, ∀ p ∈ pats,
        (v.model == "res.config.settings" && v.inherit_id.isSome
          && likeMatch v.arch_db p) = false := by
  intro pats
  induction pats with
  | nil =>
    intro fuel db db2 n lg h v hv p hp
    exact absurd hp (List.not_mem_nil p)
  | cons p ps ih =>
    intro fuel db db2 n lg h v hv q hq
    simp only [fixViewsPatternList] at h
    split at h
    · exact absurd h (by simp)
    · rename_i db1 n1 l1 heq1
      split at h
      · exact absurd h (by simp)
      · rename_i db4 n2 l2 heq2
        simp only [Option.some.injEq, Prod.mk.injEq] at h
        obtain ⟨hdb, hn, hlg⟩ := h
        subst hdb
        rcases List.mem_cons.mp hq with rfl | hq2
        · obtain ⟨sub2v, _⟩ := fixViewsPatternList_frame _ _ _ _ _ _ heq2
          have hv1 : v ∈ db1.ir_ui_view := sub2v.subset hv
          obtain ⟨sub1v, _⟩ := cascadeMany_frame _ _ _ _ _ _ heq1
          by_contra hc
          have hcond : (v.model == "res.config.settings" && v.inherit_id.isSome
              && likeMatch v.arch_db q) = true := by
            revert hc
            cases (v.model == "res.config.settings" && v.inherit_id.isSome
              && likeMatch v.arch_db q) <;> simp
          have hvd : v ∈ db.ir_ui_view := sub1v.subset hv1
          have hsel : v.id ∈ selectProblemViews db q := by
            simp only [selectProblemViews, List.mem_map]
            exact ⟨v, List.mem_filter.mpr ⟨hvd, hcond⟩, rfl⟩
          exact cascadeMany_rootAbsent _ _ _ _ _ _ heq1 v.id hsel v hv1 rfl
        · exact ih _ _ _ _ _ heq2 v hv q hq2

/-- Unfolding of `migrate` on a truthy version. -/
theorem migrate_step (fuel : Nat) (v : Option String) (db : DB)
    (hv : truthyVersion v = true) :
    migrate fuel v db =
      match fixIncompatibleSettingsViews fuel
          (fixProjectDeleteWizard (fixEdiFormatNoupdate (fixFatturapaCron db).1).1).1 with
      | none => none
      | some (db4, l4) =>
        some (db4, (fixFatturapaCron db).2
            ++ (fixEdiFormatNoupdate (fixFatturapaCron db).1).2
            ++ (fixProjectDeleteWizard (fixEdiFormatNoupdate (fixFatturapaCron db).1).1).2
            ++ l4) := by
  simp [migrate, hv]

/-- C4. Idempotence of the migration sequence: if `migrate` with a
non-empty version turns state `db` into `db2`, then running the whole
sequence again on `db2` (with any fuel) leaves the state `db2` unchanged:
the cron UPDATE, the metadata UPDATEs and the two DELETE steps find
nothing left to change, and no view matches any deprecated pattern any
more. -/
theorem migrateIdempotent (fuel fuel2 : Nat) (version : Option String) (db db2 : DB)
    (hv : truthyVersion version = true)
    (h : migrateState fuel version db = some db2) :
    migrateState fuel2 version db2 = some db2 := by
  unfold migrateState at h ⊢
  rw [migrate_step fuel version db hv] at h
  split at h
  · simp at h
  · rename_i db4 l4 heqD
    simp only [Option.map_some', Option.some.injEq] at h
    obtain rfl : db4 = db2 := h
    obtain ⟨nn, ll, heqPL⟩ :
        ∃ nn ll, fixViewsPatternList fuel
          (fixProjectDeleteWizard (fixEdiFormatNoupdate (fixFatturapaCron db).1).1).1
          problematicPatterns = some (db4, nn, ll) := by
      unfold fixIncompatibleSettingsViews at heqD
      split at heqD
      · simp at heqD
      · rename_i dbx nx lx heq
        simp only [Option.some.injEq, Prod.mk.injEq] at heqD
        obtain ⟨h1, h2⟩ := heqD
        subst h1
        exact ⟨nx, lx, heq⟩
    obtain ⟨fsubv, fsubm, fcron, fflag, fdocs, fmodel, faccess⟩ :=
      fixViewsPatternList_frame _ _ _ _ _ _ heqPL
    obtain ⟨wcron, wflag, wdocs, wmodel, wviews⟩ :=
      fixWiz_fields (fixEdiFormatNoupdate (fixFatturapaCron db).1).1
    obtain ⟨ecron, eflag, edocs, emodel, eaccess, eviews⟩ :=
      fixEdi_fields (fixFatturapaCron db).1
    have hcron : db4.ir_cron = db.ir_cron.map cronFix := by
      rw [fcron, wcron, ecron]
      rfl
    have hflag : db4.account_edi_document_table = db.account_edi_document_table := by
      rw [fflag, wflag, eflag]
      rfl
    have hdocs : db4.account_edi_document = db.account_edi_document := by
      rw [fdocs, wdocs, edocs]
      rfl
    have hmodel : db4.ir_model = db.ir_model := by
      rw [fmodel, wmodel, emodel]
      rfl
    have s1 : fixFatturapaCron db4 = (db4, [Stmt.updateCronDeactivate]) := by
      have hfix : ∀ c ∈ db4.ir_cron, cronFix c = c := by
        intro c hc
        rw [hcron] at hc
        obtain ⟨y, hy, hyc⟩ := List.mem_map.mp hc
        rw [← hyc]
        exact cronFix_idem y
      unfold fixFatturapaCron
      rw [listMapId cronFix db4.ir_cron hfix]
    have s2 : (fixEdiFormatNoupdate db4).1 = db4 := by
      by_cases hf : db.account_edi_document_table = true
      · have hBm : (fixEdiFormatNoupdate (fixFatturapaCron db).1).1.ir_model_data =
            (((fixFatturapaCron db).1.ir_model_data.map mdataFatturapaFix).map
              (mdataEdiFormatFix
                (db.account_edi_document.filterMap EdiDoc.edi_format_id))) := by
          have hfA : (fixFatturapaCron db).1.account_edi_document_table = true := hf
          simp only [fixEdiFormatNoupdate, hfA, Bool.not_true, Bool.false_eq_true,
            if_false]
          rfl
        have hsubC : ∀ d ∈ (fixProjectDeleteWizard
              (fixEdiFormatNoupdate (fixFatturapaCron db).1).1).1.ir_model_data,
            d ∈ (fixEdiFormatNoupdate (fixFatturapaCron db).1).1.ir_model_data := by
          by_cases hw : ((List.filter (fun m => m.model == "project.delete.wizard")
              (fixEdiFormatNoupdate (fixFatturapaCron db).1).1.ir_model).map
              IrModel.id).isEmpty = true
          · simp [fixProjectDeleteWizard, hw]
          · simp only [fixProjectDeleteWizard, hw, if_false, Bool.false_eq_true]
            intro d hd
            exact (List.filter_sublist _).subset hd
        have hfix1 : ∀ d ∈ db4.ir_model_data,
            mdataFatturapaFix d = d ∧
            mdataEdiFormatFix (db.account_edi_document.filterMap EdiDoc.edi_format_id) d
              = d := by
          intro d hd
          have hdB := hsubC d (fsubm.subset hd)
          rw [hBm, List.map_map] at hdB
          obtain ⟨x, hx, hxd⟩ := List.mem_map.mp hdB
          simp only [Function.comp] at hxd
          rw [← hxd]
          exact mdataFixTwo_idem _ x
        have hf4 : db4.account_edi_document_table = true := by rw [hflag]; exact hf
        have hfix2 : ∀ d ∈ db4.ir_model_data,
            mdataEdiFormatFix (db4.account_edi_document.filterMap EdiDoc.edi_format_id) d
              = d := by
          rw [hdocs]
          exact fun d hd => (hfix1 d hd).2
        have hne : (!db4.account_edi_document_table) = false := by rw [hf4]; rfl
        simp only [fixEdiFormatNoupdate, hne, Bool.false_eq_true, if_false]
        rw [listMapId _ _ (fun d hd => (hfix1 d hd).1)]
        rw [listMapId _ _ hfix2]
      · have hf4 : db4.account_edi_document_table = false := by
          rw [hflag]
          exact Bool.not_eq_true _ ▸ (by simpa using hf)
        simp [fixEdiFormatNoupdate, hf4]
    have s3 : (fixProjectDeleteWizard db4).1 = db4 := by
      by_cases hw : ((List.filter (fun m => m.model == "project.delete.wizard")
          db.ir_model).map IrModel.id).isEmpty = true
      · have hw4 : ((List.filter (fun m => m.model == "project.delete.wizard")
            db4.ir_model).map IrModel.id).isEmpty = true := by rw [hmodel]; exact hw
        simp [fixProjectDeleteWizard, hw4]
      · have hBmodel : (fixEdiFormatNoupdate (fixFatturapaCron db).1).1.ir_model
            = db.ir_model := emodel
        have hwB : ¬((List.filter (fun m => m.model == "project.delete.wizard")
            (fixEdiFormatNoupdate (fixFatturapaCron db).1).1.ir_model).map
            IrModel.id).isEmpty = true := by rw [hBmodel]; exact hw
        have hCacc : (fixProjectDeleteWizard
              (fixEdiFormatNoupdate (fixFatturapaCron db).1).1).1.ir_model_access =
            (fixEdiFormatNoupdate (fixFatturapaCron db).1).1.ir_model_access.filter
              (fun a => !(((List.filter (fun m => m.model == "project.delete.wizard")
                (fixEdiFormatNoupdate (fixFatturapaCron db).1).1.ir_model).map
                IrModel.id).contains a.model_id)) := by
          simp only [fixProjectDeleteWizard, hwB, if_false, Bool.false_eq_true]
        have hCmd : (fixProjectDeleteWizard
              (fixEdiFormatNoupdate (fixFatturapaCron db).1).1).1.ir_model_data =
            (fixEdiFormatNoupdate (fixFatturapaCron db).1).1.ir_model_data.filter
              (fun d => !likeMatch d.name "%project_delete_wizard%") := by
          simp only [fixProjectDeleteWizard, hwB, if_false, Bool.false_eq_true]
        have hw4 : ¬((List.filter (fun m => m.model == "project.delete.wizard")
            db4.ir_model).map IrModel.id).isEmpty = true := by rw [hmodel]; exact hw
        have hacc : ∀ a ∈ db4.ir_model_access,
            (!(((List.filter (fun m => m.model == "project.delete.wizard")
              db4.ir_model).map IrModel.id).contains a.model_id)) = true := by
          intro a ha
          rw [hmodel, ← hBmodel]
          rw [faccess, hCacc] at ha
          exact (List.mem_filter.mp ha).2
        have hmd : ∀ d ∈ db4.ir_model_data,
            (!likeMatch d.name "%project_delete_wizard%") = true := by
          intro d hd
          have hmem := fsubm.subset hd
          rw [hCmd] at hmem
          exact (List.mem_filter.mp hmem).2
        simp only [fixProjectDeleteWizard, hw4, if_false, Bool.false_eq_true]
        rw [List.filter_eq_self.mpr hacc, List.filter_eq_self.mpr hmd]
    have hclear : ∀ p ∈ problematicPatterns, selectProblemViews db4 p = [] := by
      intro p hp
      have hall := fixViewsPatternList_clears _ _ _ _ _ _ heqPL
      simp only [selectProblemViews]
      rw [List.map_eq_nil_iff]
      rw [List.filter_eq_nil_iff]
      intro v hv
      simp [hall v hv p hp]
    have s4 := fixIncompatibleNoMatches db4 hclear fuel2
    rw [migrate_step fuel2 version db4 hv]
    have s1a : (fixFatturapaCron db4).1 = db4 := by rw [s1]
    rw [s1a, s2, s3, s4]
    simp

/-- Witness for C4 on a database exercising all four steps. -/
theorem migrateIdempotent_witness :
    migrateState 6 (some "16.0.1.3") dbC4w = some dbC4wOut ∧
    migrateState 3 (some "16.0.1.3") dbC4wOut = some dbC4wOut :=
  ⟨by decide,
   migrateIdempotent 6 3 (some "16.0.1.3") dbC4w dbC4wOut (by decide) (by decide)⟩
